import Mathlib

/-!
# Career-Clarity pattern-detection core: shallow embedding

This file embeds the posting-pattern detection and authenticity-scoring
engine of the Career-Clarity backend
(`backend/src/services/patternDetector.js`, exposed through
`backend/src/controllers/jobController.js`) in Lean 4 and proves and
refutes the specification's claims about it.

Strings are modelled as `List Char`; JS timestamps as `Int` milliseconds;
JS floating-point arithmetic on the similarity scores as exact `Rat`
arithmetic (every quantity the claims mention is a small rational, so the
exact model agrees with the float model on the decided comparisons).
-/

namespace CareerClarity

/-- A string, modelled as its list of characters. -/
abbrev Str := List Char

/-- The set of characters matched by the JavaScript regex class `\s`
(whitespace), as used in `normalizeCompanyName` and in
`string-similarity`'s `compareTwoStrings`.  The ASCII members plus the
Unicode space characters; only the ASCII ones matter for the claims. -/
def isJsSpace (c : Char) : Bool :=
  c = ' ' ∨ c = '\t' ∨ c = '\n' ∨ c = '\r' ∨
  c.toNat = 11 ∨ c.toNat = 12 ∨
  c.toNat = 160 ∨ c.toNat = 5760 ∨
  (8192 ≤ c.toNat ∧ c.toNat ≤ 8202) ∨
  c.toNat = 8232 ∨ c.toNat = 8233 ∨ c.toNat = 8239 ∨ c.toNat = 8287 ∨
  c.toNat = 12288 ∨ c.toNat = 65279

/-- `s.toLowerCase()` on the characters of a string (ASCII case map, which
covers every input the claims and tests exercise). -/
def lowerStr (s : Str) : Str := s.map Char.toLower

/-- Worker for `collapseWs`: the Bool records whether the previous
character was whitespace (i.e. we are inside a run that has already
emitted its single replacement space). -/
def collapseAux : Bool → Str → Str
  | _, [] => []
  | prevSpace, c :: rest =>
    if isJsSpace c then
      if prevSpace then collapseAux true rest
      else ' ' :: collapseAux true rest
    else c :: collapseAux false rest

/-- `.replace(/\s+/g, ' ')`: every maximal run of whitespace characters is
replaced by a single space. -/
def collapseWs (s : Str) : Str := collapseAux false s

/-- The punctuation characters stripped by `normalizeCompanyName`'s second
`.replace`: the regex class contains `. , / # ! $ % ^ & * ; :`, the two
curly braces, `= - _`, the backquote, `~ ( )`.  The braces and the
backquote are written by code point. -/
def punctChars : List Char :=
  ['.', ',', '/', '#', '!', '$', '%', '^', '&', '*', ';', ':',
   Char.ofNat 123, Char.ofNat 125, '=', '-', '_', Char.ofNat 96, '~', '(', ')']

/-- `.replace(/[.,\/#!$%\^&\*;:{}=\-_~()]/g, '')` (with backquote in the
class): delete every occurrence of a punctuation character. -/
def stripPunct (s : Str) : Str := s.filter (fun c => !(punctChars.contains c))

/-- The corporate suffix words of `normalizeCompanyName`'s third
`.replace`. -/
def corpSuffixes : List Str := [['i','n','c'], ['c','o','r','p'], ['l','l','c'], ['l','t','d']]

/-- Does `s` end with the word `w` (case-insensitively), preceded by at
least one whitespace character?  This is when the anchored regex
alternative matches. -/
def endsWithCorpWord (s : Str) (w : Str) : Bool :=
  (decide (lowerStr (s.reverse.take w.length) = w.reverse)) &&
  (match s.reverse.drop w.length with
   | [] => false
   | c :: _ => isJsSpace c)

/-- Does one of the four suffix alternatives match at the end of `s`? -/
def endsWithCorpSuffix (s : Str) : Bool :=
  corpSuffixes.any (endsWithCorpWord s)

/-- Remove the matched tail: the suffix word together with the whole
whitespace run immediately before it (the regex's greedy, leftmost `\s+`). -/
def dropCorpWord (s : Str) (w : Str) : Str :=
  (((s.reverse.drop w.length).dropWhile isJsSpace)).reverse

/-- `.replace(/\s+inc$|\s+corp$|\s+llc$|\s+ltd$/i, '')`: strip one
trailing corporate-suffix token (with its preceding whitespace) if
present; the four word endings are mutually exclusive. -/
def stripCorpSuffix (s : Str) : Str :=
  match corpSuffixes.find? (endsWithCorpWord s) with
  | some w => dropCorpWord s w
  | none => s

/-- `.trim()`: remove whitespace from both ends. -/
def trimStr (s : Str) : Str :=
  ((s.dropWhile isJsSpace).reverse.dropWhile isJsSpace).reverse

/-- `normalizeCompanyName` from `patternDetector.js`: lower-case, collapse
whitespace runs to one space, delete the punctuation set, strip one
trailing corporate suffix, trim. -/
def normalizeCompanyName (company : Str) : Str :=
  trimStr (stripCorpSuffix (stripPunct (collapseWs (lowerStr company))))

/-! ## Similarity engine

`detectCompanyPatterns` scores description pairs with
`stringSimilarity.compareTwoStrings(a.toLowerCase(), b.toLowerCase())`
from the `string-similarity` npm package (the Sørensen–Dice bigram
coefficient).  The definitions below embed that library function:
whitespace is removed, identical strings score 1, strings shorter than two
characters score 0, and otherwise the score is twice the multiset
intersection of the two bigram lists over the total number of bigrams. -/

/-- `str.replace(/\s+/g, '')` inside `compareTwoStrings`: delete all
whitespace. -/
def stripAllWs (s : Str) : Str := s.filter (fun c => !(isJsSpace c))

/-- The consecutive-character bigrams of a string, in order. -/
def bigrams : Str → List (Char × Char)
  | a :: b :: rest => (a, b) :: bigrams (b :: rest)
  | _ => []

/-- Remove the first occurrence of a bigram from a list (one decrement of
the JS count map). -/
def consume : List (Char × Char) → (Char × Char) → List (Char × Char)
  | [], _ => []
  | x :: xs, b => if x = b then xs else x :: consume xs b

/-- The intersection count computed by `compareTwoStrings`' second loop:
walk the second bigram list, and for each bigram still available in the
(first list's) count map, consume one occurrence and count a hit.  This is
the multiset-intersection cardinality. -/
def interCount : List (Char × Char) → List (Char × Char) → Nat
  | _, [] => 0
  | l1, b :: rest => if b ∈ l1 then interCount (consume l1 b) rest + 1 else interCount l1 rest

/-- `compareTwoStrings(first, second)` from the `string-similarity`
package, with the float result modelled as an exact rational. -/
def compareTwoStrings (first second : Str) : ℚ :=
  if stripAllWs first = stripAllWs second then 1
  else if (stripAllWs first).length < 2 ∨ (stripAllWs second).length < 2 then 0
  else (2 * interCount (bigrams (stripAllWs first)) (bigrams (stripAllWs second)) : ℚ) /
    (((stripAllWs first).length + (stripAllWs second).length - 2 : ℕ) : ℚ)

/-- The similarity metric as `detectCompanyPatterns` invokes it
(`patternDetector.js` line 256): both descriptions are lower-cased first. -/
def similarity (a b : Str) : ℚ := compareTwoStrings (lowerStr a) (lowerStr b)

/-- `SIMILARITY_THRESHOLD = 0.85` (`patternDetector.js` line 202). -/
def SIMILARITY_THRESHOLD : ℚ := 85 / 100

/-- `SUSPICIOUS_REPOST_DAYS = 90` (`patternDetector.js` line 203). -/
def SUSPICIOUS_REPOST_DAYS : Nat := 90

/-! ## Data model and pattern analysis -/

/-- One stored observation of a job posting: the `Item` that
`detectCompanyPatterns` puts into the `JOB_PATTERNS_TABLE`, read back
through the `CompanyNameIndex`.  Timestamps are milliseconds since the
epoch (the value of a JS `Date`); `lastSeen` is optional because the code
guards it with `posting.lastSeen || new Date()`. -/
structure PostingRecord where
  id : Nat
  companyName : Str
  jobTitle : Str
  location : Str
  jobDescription : Str
  firstSeen : Int
  lastSeen : Option Int
  similarJobs : List Nat
  userId : Str
deriving Repr, DecidableEq

/-- `daysDifference(date1, date2)`: `Math.ceil(Math.abs(date2 - date1) /
(1000*60*60*24))` on millisecond timestamps. -/
def daysDifference (date1 date2 : Int) : Nat :=
  ((date2 - date1).natAbs + (86400000 - 1)) / 86400000

/-- `Math.round(num / den)` for natural `num` and positive `den`:
round-half-up, i.e. `floor(num/den + 1/2)`. -/
def jsRoundNat (num den : Nat) : Nat := (2 * num + den) / (2 * den)

/-- `Math.round(q)` for a non-negative rational `q`: `floor(q + 1/2)`. -/
def jsRound (q : ℚ) : ℤ := ⌊q + 1 / 2⌋

/-- Insert a record into a list sorted ascending by `firstSeen`. -/
def insertByFirstSeen (r : PostingRecord) : List PostingRecord → List PostingRecord
  | [] => [r]
  | x :: xs =>
    if r.firstSeen ≤ x.firstSeen then r :: x :: xs else x :: insertByFirstSeen r xs

/-- `[...companyHistory].sort((a, b) => new Date(a.firstSeen) - new
Date(b.firstSeen))`: the history sorted ascending by `firstSeen`
(insertion sort; the code's comparator only depends on `firstSeen`, so any
sort by that key yields the same consecutive-gap sum). -/
def sortByFirstSeen (l : List PostingRecord) : List PostingRecord :=
  l.foldr insertByFirstSeen []

/-- The loop summing `daysDifference` over consecutive entries of the
sorted history (`totalDays`). -/
def consecutiveGapSum : List PostingRecord → Nat
  | [] => 0
  | [_] => 0
  | a :: b :: rest => daysDifference a.firstSeen b.firstSeen + consecutiveGapSum (b :: rest)

/-- `patterns.averagePostingFrequency`: `Math.round(totalDays / (count -
1))` when the history has more than one record, otherwise 0. -/
def averagePostingFrequency (history : List PostingRecord) : Nat :=
  if history.length > 1 then
    jsRoundNat (consecutiveGapSum (sortByFirstSeen history)) (history.length - 1)
  else 0

/-- One element of the `similarJobs` array `detectCompanyPatterns`
returns: id, title, rounded percentage similarity, and the record's two
timestamps. -/
structure SimilarJobEntry where
  id : Nat
  jobTitle : Str
  similarityPct : Int
  firstSeen : Int
  lastSeen : Option Int
deriving Repr, DecidableEq

/-- Build the `similarJobs` entry pushed for one sufficiently similar
historical posting (`Math.round(similarity * 100)`). -/
def toSimilarJobEntry (jobDescription : Str) (p : PostingRecord) : SimilarJobEntry :=
  { id := p.id
    jobTitle := p.jobTitle
    similarityPct := jsRound (similarity jobDescription p.jobDescription * 100)
    firstSeen := p.firstSeen
    lastSeen := p.lastSeen }

/-- The `similarJobs` list: the historical postings whose description
similarity to the new description strictly exceeds the threshold, in
history order. -/
def similarJobsOf (jobDescription : Str) (history : List PostingRecord) : List SimilarJobEntry :=
  (history.filter
    (fun p => decide (SIMILARITY_THRESHOLD < similarity jobDescription p.jobDescription))).map
    (toSimilarJobEntry jobDescription)

/-- Days a posting has been open: `daysDifference(firstSeen, lastSeen ||
now)`. -/
def openDays (now : Int) (p : PostingRecord) : Nat :=
  daysDifference p.firstSeen (p.lastSeen.getD now)

/-- `patterns.longestOpenDays`: the running maximum of `openDays` over the
whole history, starting from 0. -/
def longestOpenDaysOf (now : Int) (history : List PostingRecord) : Nat :=
  history.foldl (fun acc p => max acc (openDays now p)) 0

/-- The human-readable finding strings pushed onto
`patterns.suspiciousPatterns`, modelled as a datatype carrying the values
interpolated into each template string. -/
inductive Finding where
  | positionOpenTooLong (days : Nat)
  | multipleSimilarPostings (count : Nat)
  | highPostingFrequency
deriving Repr, DecidableEq

/-- The `patterns` object assembled by `detectCompanyPatterns`. -/
structure PatternSummary where
  companyName : Str
  recentPostings : Nat
  similarJobCount : Nat
  longestOpenDays : Nat
  recycledDescriptions : Bool
  averagePostingFrequency : Nat
  suspiciousPatterns : List Finding
  confidenceScore : Int
deriving Repr, DecidableEq

/-- The pure analysis phase of `detectCompanyPatterns` (lines 222–305):
compute the metrics from the new description and the company history,
then apply the three deduction rules in order, starting from the default
confidence score of 10. -/
def computePatterns (jobDescription : Str) (normalizedCompany : Str) (now : Int)
    (history : List PostingRecord) : PatternSummary × List SimilarJobEntry :=
  let sims := similarJobsOf jobDescription history
  let lod := longestOpenDaysOf now history
  let avg := averagePostingFrequency history
  let rule1 : Bool := decide (lod > SUSPICIOUS_REPOST_DAYS)
  let rule2 : Bool := decide (sims.length > 3)
  let rule3 : Bool := decide (avg < 7 ∧ history.length > 5)
  ({ companyName := normalizedCompany
     recentPostings := history.length
     similarJobCount := sims.length
     longestOpenDays := lod
     recycledDescriptions := rule2
     averagePostingFrequency := avg
     suspiciousPatterns :=
       (if rule1 then [Finding.positionOpenTooLong lod] else []) ++
       (if rule2 then [Finding.multipleSimilarPostings sims.length] else []) ++
       (if rule3 then [Finding.highPostingFrequency] else [])
     confidenceScore :=
       10 - (if rule1 then 2 else 0) - (if rule2 then 2 else 0) -
         (if rule3 then 1 else 0) }, sims)

/-! ## Durable state and the effectful operation -/

/-- The object `detectCompanyPatterns` puts into the S3 bucket
(`company-patterns/<company>-<timestamp>.json`). -/
structure S3PatternObject where
  companyName : Str
  patterns : PatternSummary
  similarJobs : List SimilarJobEntry
  timestamp : Int
deriving Repr, DecidableEq

/-- The two durable stores the operation writes: the DynamoDB
`JOB_PATTERNS_TABLE` and the S3 `JOB_DATA_BUCKET`, each modelled as an
append-ordered list. -/
structure Stores where
  jobPatternsTable : List PostingRecord
  jobDataBucket : List S3PatternObject
deriving Repr, DecidableEq

/-- `getCompanyPostingHistory`: query the table's `CompanyNameIndex` for
every record whose `companyName` equals the normalized name. -/
def queryByCompany (table : List PostingRecord) (name : Str) : List PostingRecord :=
  table.filter (fun r => decide (r.companyName = name))

/-- The request body of one analysis call (`companyData`). -/
structure AnalyzeInput where
  company : Str
  jobTitle : Str
  location : Str
  jobDescription : Str
  userId : Option Str
deriving Repr, DecidableEq

/-- The value `detectCompanyPatterns` resolves with on success. -/
structure AnalyzeOutput where
  id : Nat
  patterns : PatternSummary
  similarJobs : List SimilarJobEntry
  timestamp : Int
deriving Repr, DecidableEq

/-- The store-failure outcome (`StoreUnavailable` in the spec's
taxonomy): a rejected `put`/`putObject` promise propagates out of the
`try` block as a thrown error. -/
inductive StoreErr where
  | storeUnavailable
deriving Repr, DecidableEq

/-- The fresh `Item` put into the table for this call: a new id, the
normalized company name, `firstSeen = lastSeen = timestamp`, and the ids
of the similar postings found during this analysis. -/
def newPostingRecord (input : AnalyzeInput) (normalized : Str)
    (sims : List SimilarJobEntry) (now : Int) (newId : Nat) : PostingRecord :=
  { id := newId
    companyName := normalized
    jobTitle := input.jobTitle
    location := input.location
    jobDescription := input.jobDescription
    firstSeen := now
    lastSeen := some now
    similarJobs := sims.map (fun j => j.id)
    userId := input.userId.getD ['a','n','o','n','y','m','o','u','s'] }

/-- `detectCompanyPatterns` (`patternDetector.js` lines 211–349) as a
state transition on the two durable stores.  `now` stands for `new
Date()`, `newId` for `uuidv4()`; `dynamoFails` / `s3Fails` inject a
rejection of the corresponding durable write.  The function returns the
call's outcome together with the stores as they are left behind: a
DynamoDB failure leaves both stores untouched, while an S3 failure
happens after the DynamoDB `put` has already been awaited, so the new
PostingRecord stays in the table even though the call fails. -/
def detectCompanyPatterns (input : AnalyzeInput) (now : Int) (newId : Nat)
    (dynamoFails s3Fails : Bool) (st : Stores) :
    Except StoreErr AnalyzeOutput × Stores :=
  let normalized := normalizeCompanyName input.company
  let history := queryByCompany st.jobPatternsTable normalized
  let analysis := computePatterns input.jobDescription normalized now history
  let record := newPostingRecord input normalized analysis.2 now newId
  if dynamoFails then (Except.error StoreErr.storeUnavailable, st)
  else
    let st1 : Stores := { st with jobPatternsTable := st.jobPatternsTable ++ [record] }
    if s3Fails then (Except.error StoreErr.storeUnavailable, st1)
    else
      let st2 : Stores :=
        { st1 with jobDataBucket :=
            st1.jobDataBucket ++ [⟨normalized, analysis.1, analysis.2, now⟩] }
      (Except.ok ⟨newId, analysis.1, analysis.2, now⟩, st2)

/-! ## Fleet aggregator (`getSuspiciousCompanies`) -/

/-- JS `Set.prototype.add`: keep insertion order, ignore an element that
is already present. -/
def addToSet (x : Str) (s : List Str) : List Str := if x ∈ s then s else s ++ [x]

/-- The running aggregate kept per company in `companyMap`. -/
structure CompanyAgg where
  companyName : Str
  postingCount : Nat
  similarPostingsCount : Nat
  locations : List Str
  titles : List Str
deriving Repr, DecidableEq

/-- The zero-initialised aggregate created on first sight of a company. -/
def emptyAgg (name : Str) : CompanyAgg :=
  { companyName := name, postingCount := 0, similarPostingsCount := 0
    locations := [], titles := [] }

/-- The four `companyMap[item.companyName]` updates of one loop
iteration. -/
def bumpAgg (c : CompanyAgg) (item : PostingRecord) : CompanyAgg :=
  { c with
    postingCount := c.postingCount + 1
    similarPostingsCount := c.similarPostingsCount + item.similarJobs.length
    locations := addToSet item.location c.locations
    titles := addToSet item.jobTitle c.titles }

/-- One loop iteration on the company map, modelled as an insertion-order
association list (a JS object keyed by `companyName`): bump the first
aggregate with a matching name, or append a fresh one. -/
def updateMap : List CompanyAgg → PostingRecord → List CompanyAgg
  | [], item => [bumpAgg (emptyAgg item.companyName) item]
  | c :: cs, item =>
    if c.companyName = item.companyName then bumpAgg c item :: cs
    else c :: updateMap cs item

/-- The `for (const item of result.Items)` loop. -/
def buildCompanyMap (items : List PostingRecord) : List CompanyAgg :=
  items.foldl updateMap []

/-- `company.titles.length` (`patternDetector.js` line 459):
`calculateSuspicionScore` is called at line 442 with the map aggregate
itself — `Array.from` converts `locations`/`titles` only in the spread
copy being returned — so `company.titles` is still a JS `Set`, which
exposes `size`, not `length`.  The property read yields `undefined`,
modelled as `none`. -/
def titlesDotLength (_ : CompanyAgg) : Option Nat := none

/-- `const titleRatio = company.titles.length / company.postingCount`:
`undefined / n` is `NaN`.  A JS number that may be `NaN` is modelled as
an `Option`, `none` standing for `NaN`; here the value is always
`none`. -/
def titleRatio (c : CompanyAgg) : Option ℚ :=
  (titlesDotLength c).map (fun n => (n : ℚ) / (c.postingCount : ℚ))

/-- `titleRatio < 0.5`: a `<` comparison whose operand is `NaN` is always
false in JS. -/
def titleRatioBelowHalf (c : CompanyAgg) : Bool :=
  match titleRatio c with
  | none => false
  | some q => decide (q < 1 / 2)

/-- `calculateSuspicionScore(company)`: `score` starts at 0 and gains
`Math.min(10, company.similarPostingsCount / 2)`.  The low-title-variety
increment `score += (1 - titleRatio) * 5` is guarded by
`titleRatio < 0.5 && company.postingCount > 5`, and because `titleRatio`
is `NaN` the guard is identically false (`titleRatioBelowHalf` computes
to `false`): the increment is dead code, and the function always returns
the rounded min-clamped term alone. -/
def calculateSuspicionScore (c : CompanyAgg) : Int :=
  jsRound (min 10 ((c.similarPostingsCount : ℚ) / 2))

/-- The scoring formula the spec (§4.5) and the claim state, written from
their words for comparison with the program's `calculateSuspicionScore`:
`round(min(10, similarPostingsCount / 2) + (titleRatio < 0.5 AND
postingCount > 5 ? (1 - titleRatio) * 5 : 0))` with `titleRatio =
|distinct titles| / postingCount`. -/
def specSuspicionScore (postingCount similarPostingsCount distinctTitles : Nat) : Int :=
  jsRound (min 10 ((similarPostingsCount : ℚ) / 2) +
    (if (distinctTitles : ℚ) / (postingCount : ℚ) < 1 / 2 ∧ postingCount > 5
     then (1 - (distinctTitles : ℚ) / (postingCount : ℚ)) * 5 else 0))

/-- One element of the array `getSuspiciousCompanies` returns. -/
structure CompanySuspicionEntry where
  companyName : Str
  postingCount : Nat
  similarPostingsCount : Nat
  locations : List Str
  titles : List Str
  suspicionScore : Int
deriving Repr, DecidableEq

/-- Spread an aggregate into the returned entry, attaching its score. -/
def toEntry (c : CompanyAgg) : CompanySuspicionEntry :=
  { companyName := c.companyName, postingCount := c.postingCount
    similarPostingsCount := c.similarPostingsCount
    locations := c.locations, titles := c.titles
    suspicionScore := calculateSuspicionScore c }

/-- Insert into a list sorted descending by `suspicionScore`. -/
def insertByScoreDesc (e : CompanySuspicionEntry) :
    List CompanySuspicionEntry → List CompanySuspicionEntry
  | [] => [e]
  | x :: xs =>
    if x.suspicionScore < e.suspicionScore then e :: x :: xs
    else x :: insertByScoreDesc e xs

/-- `.sort((a, b) => b.suspicionScore - a.suspicionScore)`. -/
def sortByScoreDesc (l : List CompanySuspicionEntry) : List CompanySuspicionEntry :=
  l.foldr insertByScoreDesc []

/-- `getSuspiciousCompanies` (`patternDetector.js` lines 403–444): scan
for records with more than 3 similar-job ids, group them by company name,
score each group, and sort descending by score. -/
def getSuspiciousCompanies (table : List PostingRecord) : List CompanySuspicionEntry :=
  sortByScoreDesc
    ((buildCompanyMap (table.filter (fun r => decide (r.similarJobs.length > 3)))).map toEntry)

/-- The group of filtered records belonging to one company name (what the
loop accumulates for that key). -/
def groupOf (table : List PostingRecord) (name : Str) : List PostingRecord :=
  (table.filter (fun r => decide (r.similarJobs.length > 3))).filter
    (fun r => decide (r.companyName = name))

/-! ## Auxiliary predicates used to state the corrected claims -/

/-- Does the string fail to start with a whitespace character? -/
def headNotSpace : Str → Bool
  | [] => true
  | c :: _ => !(isJsSpace c)

/-- Two consecutive whitespace characters somewhere in the string. -/
def hasAdjacentSpaces : Str → Bool
  | c1 :: c2 :: rest => (isJsSpace c1 && isJsSpace c2) || hasAdjacentSpaces (c2 :: rest)
  | _ => false

/-- The statistics the loop is meant to accumulate for one company
aggregate, relative to the scanned records processed so far. -/
def AggStats (items : List PostingRecord) (c : CompanyAgg) : Prop :=
  c.postingCount =
    (items.filter (fun r => decide (r.companyName = c.companyName))).length ∧
  c.similarPostingsCount =
    ((items.filter (fun r => decide (r.companyName = c.companyName))).map
      (fun r => r.similarJobs.length)).sum ∧
  c.titles.Nodup ∧
  (∀ t, t ∈ c.titles ↔
    t ∈ (items.filter (fun r => decide (r.companyName = c.companyName))).map
      (fun r => r.jobTitle))

/-- Loop invariant of `buildCompanyMap`: keys are distinct, keys are
exactly the company names seen so far, and every aggregate carries the
statistics of its group. -/
def MapInv (processed : List PostingRecord) (m : List CompanyAgg) : Prop :=
  (m.map (fun c => c.companyName)).Nodup ∧
  (∀ n : Str, n ∈ m.map (fun c => c.companyName) ↔
    n ∈ processed.map (fun r => r.companyName)) ∧
  ∀ c ∈ m, AggStats processed c

/-- A sample stored posting used for concrete instantiations: seen first
at time 0, last at time 5. -/
def sampleRecord : PostingRecord :=
  { id := 0, companyName := "acme".data, jobTitle := "t".data, location := "l".data
    jobDescription := "abcdef".data, firstSeen := 0, lastSeen := some 5
    similarJobs := [], userId := "u".data }

/-- A stored posting with four similar-job ids, used to exercise the
fleet aggregator at a concrete input. -/
def flaggedRecord : PostingRecord :=
  { id := 0, companyName := "acme".data, jobTitle := "t".data, location := "l".data
    jobDescription := "abcdef".data, firstSeen := 0, lastSeen := some 0
    similarJobs := [1, 2, 3, 4], userId := "u".data }

/-- A sample analysis request whose description matches `sampleRecord`'s
exactly. -/
def sampleInput : AnalyzeInput :=
  { company := "acme".data, jobTitle := "dev".data, location := "nyc".data
    jobDescription := "abcdef".data, userId := none }

end CareerClarity

namespace CareerClarity

theorem consume_coe (l : List (Char × Char)) (b : Char × Char) :
    ((consume l b : List (Char × Char)) : Multiset (Char × Char)) =
      (l : Multiset (Char × Char)).erase b := by
  induction l with
  | nil => rfl
  | cons x xs ih =>
    by_cases h : x = b
    · subst h
      simp only [consume, if_pos rfl]
      exact (Multiset.erase_cons_head x (xs : Multiset (Char × Char))).symm
    · simp only [consume, if_neg h]
      rw [show ((x :: xs : List (Char × Char)) : Multiset (Char × Char)) =
            x ::ₘ (xs : Multiset (Char × Char)) from rfl,
        Multiset.erase_cons_tail _ h,
        show ((x :: consume xs b : List (Char × Char)) : Multiset (Char × Char)) =
            x ::ₘ ((consume xs b : List (Char × Char)) : Multiset (Char × Char)) from rfl,
        ih]

theorem interCount_eq_inter_card (l2 l1 : List (Char × Char)) :
    interCount l1 l2 = Multiset.card ((l2 : Multiset (Char × Char)) ∩ (l1 : Multiset (Char × Char))) := by
  induction l2 generalizing l1 with
  | nil => simp [interCount, Multiset.zero_inter]
  | cons b rest ih =>
    by_cases hb : b ∈ l1
    · have hb' : b ∈ (l1 : Multiset (Char × Char)) := Multiset.mem_coe.mpr hb
      rw [show ((b :: rest : List (Char × Char)) : Multiset (Char × Char)) = b ::ₘ (rest : Multiset (Char × Char)) from rfl,
        Multiset.cons_inter_of_pos _ hb', Multiset.card_cons]
      simp only [interCount, if_pos hb]
      rw [ih (consume l1 b), consume_coe]
    · have hb' : b ∉ (l1 : Multiset (Char × Char)) := fun h => hb (Multiset.mem_coe.mp h)
      rw [show ((b :: rest : List (Char × Char)) : Multiset (Char × Char)) = b ::ₘ (rest : Multiset (Char × Char)) from rfl,
        Multiset.cons_inter_of_neg _ hb']
      simp only [interCount, if_neg hb]
      exact ih l1

theorem interCount_comm (l1 l2 : List (Char × Char)) :
    interCount l1 l2 = interCount l2 l1 := by
  rw [interCount_eq_inter_card, interCount_eq_inter_card, Multiset.inter_comm]

theorem interCount_le_length_right (l1 l2 : List (Char × Char)) :
    interCount l1 l2 ≤ l2.length := by
  rw [interCount_eq_inter_card]
  calc Multiset.card ((l2 : Multiset (Char × Char)) ∩ (l1 : Multiset (Char × Char)))
      ≤ Multiset.card (l2 : Multiset (Char × Char)) :=
        Multiset.card_le_card (Multiset.inter_le_left _ _)
    _ = l2.length := Multiset.coe_card l2

theorem interCount_le_length_left (l1 l2 : List (Char × Char)) :
    interCount l1 l2 ≤ l1.length := by
  rw [interCount_comm]
  exact interCount_le_length_right l2 l1

theorem bigrams_length (l : Str) : (bigrams l).length = l.length - 1 := by
  induction l with
  | nil => rfl
  | cons a rest ih =>
    cases rest with
    | nil => rfl
    | cons b t =>
      simp only [bigrams, List.length_cons] at ih ⊢
      omega

theorem compareTwoStrings_self (a : Str) : compareTwoStrings a a = 1 := by
  unfold compareTwoStrings
  rw [if_pos rfl]

theorem compareTwoStrings_nonneg (a b : Str) : 0 ≤ compareTwoStrings a b := by
  unfold compareTwoStrings
  split_ifs with h1 h2
  · exact zero_le_one
  · exact le_refl 0
  · apply div_nonneg
    · positivity
    · exact Nat.cast_nonneg _

theorem compareTwoStrings_le_one (a b : Str) : compareTwoStrings a b ≤ 1 := by
  unfold compareTwoStrings
  split_ifs with h1 h2
  · exact le_refl 1
  · exact zero_le_one
  · push_neg at h2
    obtain ⟨hf, hs⟩ := h2
    have hI1 : interCount (bigrams (stripAllWs a)) (bigrams (stripAllWs b)) ≤
        (stripAllWs a).length - 1 := by
      have := interCount_le_length_left (bigrams (stripAllWs a)) (bigrams (stripAllWs b))
      rwa [bigrams_length] at this
    have hI2 : interCount (bigrams (stripAllWs a)) (bigrams (stripAllWs b)) ≤
        (stripAllWs b).length - 1 := by
      have := interCount_le_length_right (bigrams (stripAllWs a)) (bigrams (stripAllWs b))
      rwa [bigrams_length] at this
    have hnat : 2 * interCount (bigrams (stripAllWs a)) (bigrams (stripAllWs b)) ≤
        (stripAllWs a).length + (stripAllWs b).length - 2 := by omega
    have hden : (0 : ℚ) < (((stripAllWs a).length + (stripAllWs b).length - 2 : ℕ) : ℚ) := by
      have : 0 < (stripAllWs a).length + (stripAllWs b).length - 2 := by omega
      exact_mod_cast this
    rw [div_le_one hden]
    exact_mod_cast hnat

theorem compareTwoStrings_comm (a b : Str) :
    compareTwoStrings a b = compareTwoStrings b a := by
  unfold compareTwoStrings
  by_cases h : stripAllWs a = stripAllWs b
  · rw [if_pos h, if_pos h.symm]
  · rw [if_neg h, if_neg (Ne.symm h)]
    by_cases h2 : (stripAllWs a).length < 2 ∨ (stripAllWs b).length < 2
    · rw [if_pos h2, if_pos (Or.symm h2)]
    · rw [if_neg h2, if_neg (fun hc => h2 (Or.symm hc))]
      rw [interCount_comm, Nat.add_comm ((stripAllWs b).length) ((stripAllWs a).length)]

/-! ## Pattern summary: score shape -/

theorem computePatterns_confidenceScore (desc comp : Str) (now : Int)
    (history : List PostingRecord) :
    (computePatterns desc comp now history).1.confidenceScore =
      10 - (if longestOpenDaysOf now history > SUSPICIOUS_REPOST_DAYS then 2 else 0)
         - (if (similarJobsOf desc history).length > 3 then 2 else 0)
         - (if averagePostingFrequency history < 7 ∧ history.length > 5 then 1 else 0) := by
  simp [computePatterns]

theorem computePatterns_score_bounds (desc comp : Str) (now : Int)
    (history : List PostingRecord) :
    5 ≤ (computePatterns desc comp now history).1.confidenceScore ∧
      (computePatterns desc comp now history).1.confidenceScore ≤ 10 := by
  rw [computePatterns_confidenceScore]
  split_ifs <;> omega

theorem detect_ok_patterns (input : AnalyzeInput) (now : Int) (newId : Nat)
    (dynamoFails s3Fails : Bool) (st : Stores) (out : AnalyzeOutput)
    (hok : (detectCompanyPatterns input now newId dynamoFails s3Fails st).1 = Except.ok out) :
    out.patterns =
      (computePatterns input.jobDescription (normalizeCompanyName input.company) now
        (queryByCompany st.jobPatternsTable (normalizeCompanyName input.company))).1 := by
  cases dynamoFails with
  | true => simp [detectCompanyPatterns] at hok
  | false =>
    cases s3Fails with
    | true => simp [detectCompanyPatterns] at hok
    | false =>
      simp only [detectCompanyPatterns, if_false, Bool.false_eq_true, if_neg] at hok
      cases hok
      rfl

/-- C3: the claim asserts some input makes `confidenceScore` strictly
less than 1.  This is impossible: the three deductions remove at most
2 + 2 + 1 = 5 from the initial 10, so no successful analysis ever
returns a score below 5, let alone below 1. -/
theorem C3_score_below_floor_impossible :
    ¬ ∃ (input : AnalyzeInput) (now : Int) (newId : Nat) (dynamoFails s3Fails : Bool)
      (st : Stores) (out : AnalyzeOutput),
      (detectCompanyPatterns input now newId dynamoFails s3Fails st).1 = Except.ok out ∧
      out.patterns.confidenceScore < 1 := by
  rintro ⟨input, now, newId, df, sf, st, out, hok, hlt⟩
  rw [detect_ok_patterns input now newId df sf st out hok] at hlt
  have := computePatterns_score_bounds input.jobDescription
    (normalizeCompanyName input.company) now
    (queryByCompany st.jobPatternsTable (normalizeCompanyName input.company))
  omega

/-- C3 (amended): the deduction rules are indeed applied with no floor
clamp, but they cannot take the score below 5: every output of the
analysis has `5 ≤ confidenceScore ≤ 10`. -/
theorem C3_amended_score_bounds (desc comp : Str) (now : Int)
    (history : List PostingRecord) :
    5 ≤ (computePatterns desc comp now history).1.confidenceScore ∧
      (computePatterns desc comp now history).1.confidenceScore ≤ 10 :=
  computePatterns_score_bounds desc comp now history

/-- C9: normalization maps "Acme, Inc.", "ACME   INC" and "acme" to the
same canonical name. -/
theorem C9_normalize_equivalence_class :
    normalizeCompanyName "Acme, Inc.".data = normalizeCompanyName "ACME   INC".data ∧
    normalizeCompanyName "ACME   INC".data = normalizeCompanyName "acme".data := by
  constructor <;> decide

/-- C7: analysing a company with zero stored history succeeds with
`confidenceScore = 10`, `similarJobCount = 0` and no suspicious
patterns. -/
theorem C7_zero_history (input : AnalyzeInput) (now : Int) (newId : Nat) (st : Stores)
    (h : queryByCompany st.jobPatternsTable (normalizeCompanyName input.company) = []) :
    ∃ out, (detectCompanyPatterns input now newId false false st).1 = Except.ok out ∧
      out.patterns.confidenceScore = 10 ∧
      out.patterns.similarJobCount = 0 ∧
      out.patterns.suspiciousPatterns = [] := by
  refine ⟨_, rfl, ?_, ?_, ?_⟩ <;> rw [h] <;> rfl

/-- Witness for C7: a concrete call against an empty store. -/
theorem C7_zero_history_witness :
    ∃ out, (detectCompanyPatterns
        ⟨"acme".data, "dev".data, "nyc".data, "great job".data, none⟩
        0 1 false false ⟨[], []⟩).1 = Except.ok out ∧
      out.patterns.confidenceScore = 10 ∧
      out.patterns.similarJobCount = 0 ∧
      out.patterns.suspiciousPatterns = [] :=
  C7_zero_history ⟨"acme".data, "dev".data, "nyc".data, "great job".data, none⟩ 0 1 ⟨[], []⟩ rfl

theorem mem_highPostingFrequency_iff (desc comp : Str) (now : Int)
    (history : List PostingRecord) :
    Finding.highPostingFrequency ∈ (computePatterns desc comp now history).1.suspiciousPatterns ↔
      averagePostingFrequency history < 7 ∧ history.length > 5 := by
  simp only [computePatterns, List.mem_append]
  split_ifs <;> simp_all

/-- C10: `recentPostings` is the size of the company's entire stored
history (the query applies no recency window), and the high-frequency rule
fires exactly when `averagePostingFrequency < 7` and that lifetime count
exceeds 5. -/
theorem C10_recentPostings_is_lifetime_count (input : AnalyzeInput) (now : Int)
    (newId : Nat) (st : Stores) :
    ∃ out, (detectCompanyPatterns input now newId false false st).1 = Except.ok out ∧
      out.patterns.recentPostings =
        (queryByCompany st.jobPatternsTable (normalizeCompanyName input.company)).length ∧
      (Finding.highPostingFrequency ∈ out.patterns.suspiciousPatterns ↔
        averagePostingFrequency
            (queryByCompany st.jobPatternsTable (normalizeCompanyName input.company)) < 7 ∧
          (queryByCompany st.jobPatternsTable (normalizeCompanyName input.company)).length > 5) :=
  ⟨_, rfl, rfl, mem_highPostingFrequency_iff input.jobDescription
    (normalizeCompanyName input.company) now
    (queryByCompany st.jobPatternsTable (normalizeCompanyName input.company))⟩

theorem computePatterns_recycled (desc comp : Str) (now : Int) (history : List PostingRecord)
    (h4 : history.length = 4)
    (hsim : ∀ p ∈ history, SIMILARITY_THRESHOLD < similarity desc p.jobDescription) :
    (computePatterns desc comp now history).1.recycledDescriptions = true ∧
    (computePatterns desc comp now history).1.similarJobCount = 4 ∧
    Finding.multipleSimilarPostings 4 ∈ (computePatterns desc comp now history).1.suspiciousPatterns ∧
    (computePatterns desc comp now history).1.confidenceScore =
      8 - (if longestOpenDaysOf now history > SUSPICIOUS_REPOST_DAYS then 2 else 0) := by
  have hfilter : history.filter
      (fun p => decide (SIMILARITY_THRESHOLD < similarity desc p.jobDescription)) = history :=
    List.filter_eq_self.mpr (fun a ha => decide_eq_true (hsim a ha))
  have hlen : (similarJobsOf desc history).length = 4 := by
    simp [similarJobsOf, hfilter, h4]
  refine ⟨?_, ?_, ?_, ?_⟩
  · simp [computePatterns, hlen]
  · simp [computePatterns, hlen]
  · simp [computePatterns, hlen]
  · rw [computePatterns_confidenceScore, hlen, h4]
    split_ifs <;> omega

/-- C8: when exactly 4 historical postings are each strictly more than
85% similar to the new description, the analysis marks
`recycledDescriptions`, reports `similarJobCount = 4`, appends the
similar-postings finding, and deducts 2 from the confidence score (only
the open-too-long rule can deduct further; the frequency rule cannot fire
with 4 postings). -/
theorem C8_four_similar_histories (input : AnalyzeInput) (now : Int) (newId : Nat) (st : Stores)
    (h4 : (queryByCompany st.jobPatternsTable (normalizeCompanyName input.company)).length = 4)
    (hsim : ∀ p ∈ queryByCompany st.jobPatternsTable (normalizeCompanyName input.company),
      SIMILARITY_THRESHOLD < similarity input.jobDescription p.jobDescription) :
    ∃ out, (detectCompanyPatterns input now newId false false st).1 = Except.ok out ∧
      out.patterns.recycledDescriptions = true ∧
      out.patterns.similarJobCount = 4 ∧
      Finding.multipleSimilarPostings 4 ∈ out.patterns.suspiciousPatterns ∧
      out.patterns.confidenceScore =
        8 - (if longestOpenDaysOf now
              (queryByCompany st.jobPatternsTable (normalizeCompanyName input.company)) >
              SUSPICIOUS_REPOST_DAYS then 2 else 0) := by
  obtain ⟨h1, h2, h3, hsc⟩ := computePatterns_recycled input.jobDescription
    (normalizeCompanyName input.company) now _ h4 hsim
  exact ⟨_, rfl, h1, h2, h3, hsc⟩

theorem similarity_self_gt_threshold (s : Str) : SIMILARITY_THRESHOLD < similarity s s := by
  rw [show similarity s s = 1 from compareTwoStrings_self _]
  norm_num [SIMILARITY_THRESHOLD]

/-- Witness for C8: four identical stored postings, a new posting with
the very same description. -/
theorem C8_four_similar_histories_witness :
    (queryByCompany (List.replicate 4 sampleRecord)
        (normalizeCompanyName sampleInput.company)).length = 4 ∧
    (∀ p ∈ queryByCompany (List.replicate 4 sampleRecord)
        (normalizeCompanyName sampleInput.company),
      SIMILARITY_THRESHOLD < similarity sampleInput.jobDescription p.jobDescription) ∧
    (∃ out, (detectCompanyPatterns sampleInput 0 9 false false
        ⟨List.replicate 4 sampleRecord, []⟩).1 = Except.ok out ∧
      out.patterns.recycledDescriptions = true ∧
      out.patterns.similarJobCount = 4 ∧
      Finding.multipleSimilarPostings 4 ∈ out.patterns.suspiciousPatterns ∧
      out.patterns.confidenceScore =
        8 - (if longestOpenDaysOf 0
              (queryByCompany (List.replicate 4 sampleRecord)
                (normalizeCompanyName sampleInput.company)) >
              SUSPICIOUS_REPOST_DAYS then 2 else 0)) := by
  have hq : queryByCompany (List.replicate 4 sampleRecord)
      (normalizeCompanyName sampleInput.company) = List.replicate 4 sampleRecord := by decide
  have hsim : ∀ p ∈ queryByCompany (List.replicate 4 sampleRecord)
      (normalizeCompanyName sampleInput.company),
      SIMILARITY_THRESHOLD < similarity sampleInput.jobDescription p.jobDescription := by
    intro p hp
    rw [hq] at hp
    rw [List.eq_of_mem_replicate hp]
    exact similarity_self_gt_threshold _
  exact ⟨by decide, hsim,
    C8_four_similar_histories sampleInput 0 9 ⟨List.replicate 4 sampleRecord, []⟩
      (by decide) hsim⟩

/-- C6: the similarity metric actually used (lower-cased Dice bigram
coefficient) is bounded in [0,1], symmetric, reflexive with value 1, and
case-insensitive: inputs equal up to letter case get the same score. -/
theorem C6_similarity_contract (a b : Str) :
    0 ≤ similarity a b ∧ similarity a b ≤ 1 ∧
    similarity a b = similarity b a ∧
    similarity a a = 1 ∧
    (∀ a2 b2 : Str, lowerStr a2 = lowerStr a → lowerStr b2 = lowerStr b →
      similarity a2 b2 = similarity a b) := by
  refine ⟨compareTwoStrings_nonneg _ _, compareTwoStrings_le_one _ _,
    compareTwoStrings_comm _ _, compareTwoStrings_self _, ?_⟩
  intro a2 b2 h1 h2
  unfold similarity
  rw [h1, h2]

/-- Witness for C6: case-insensitivity at concrete inputs. -/
theorem C6_similarity_contract_witness :
    lowerStr "AbC".data = lowerStr "aBc".data ∧
    lowerStr "Xy".data = lowerStr "xY".data ∧
    similarity "AbC".data "Xy".data = similarity "aBc".data "xY".data :=
  ⟨by decide, by decide,
    (C6_similarity_contract "aBc".data "xY".data).2.2.2.2 "AbC".data "Xy".data
      (by decide) (by decide)⟩

/-- C4 counterexample: the call at time 1000 succeeds on a store holding
a record whose description is identical (similarity 1 > 0.85), yet the
stored record keeps `lastSeen = some 5`: no existing record's `lastSeen`
is ever updated. -/
theorem C4_counterexample_lastSeen_not_updated :
    SIMILARITY_THRESHOLD < similarity sampleInput.jobDescription sampleRecord.jobDescription ∧
    (∃ out, (detectCompanyPatterns sampleInput 1000 1 false false
        ⟨[sampleRecord], []⟩).1 = Except.ok out) ∧
    (∀ r ∈ (detectCompanyPatterns sampleInput 1000 1 false false
        ⟨[sampleRecord], []⟩).2.jobPatternsTable,
      r.id = 0 → r.lastSeen = some 5) ∧
    (some 5 : Option Int) ≠ some 1000 := by
  refine ⟨similarity_self_gt_threshold _, ⟨_, rfl⟩, ?_, by decide⟩
  intro r hr
  rw [show (detectCompanyPatterns sampleInput 1000 1 false false
      ⟨[sampleRecord], []⟩).2.jobPatternsTable =
    [sampleRecord] ++
      [newPostingRecord sampleInput (normalizeCompanyName sampleInput.company)
        (computePatterns sampleInput.jobDescription (normalizeCompanyName sampleInput.company)
          1000 (queryByCompany [sampleRecord] (normalizeCompanyName sampleInput.company))).2
        1000 1] from rfl] at hr
  rcases List.mem_append.mp hr with h1 | h2
  · intro _
    rw [List.mem_singleton.mp h1]
    rfl
  · intro hid
    rw [List.mem_singleton.mp h2] at hid
    exact absurd hid (by decide)

/-- C4 (amended): `detectCompanyPatterns` never mutates stored records.
Each call appends one fresh PostingRecord whose `firstSeen` and
`lastSeen` both equal the time of the call; every previously stored
record — similar to the new posting or not — remains in the table
unchanged, old `lastSeen` included. -/
theorem C4_amended_append_only (input : AnalyzeInput) (now : Int) (newId : Nat) (st : Stores) :
    (detectCompanyPatterns input now newId false false st).2.jobPatternsTable =
      st.jobPatternsTable ++
        [newPostingRecord input (normalizeCompanyName input.company)
          (computePatterns input.jobDescription (normalizeCompanyName input.company) now
            (queryByCompany st.jobPatternsTable (normalizeCompanyName input.company))).2
          now newId] ∧
    (newPostingRecord input (normalizeCompanyName input.company)
        (computePatterns input.jobDescription (normalizeCompanyName input.company) now
          (queryByCompany st.jobPatternsTable (normalizeCompanyName input.company))).2
        now newId).firstSeen = now ∧
    (newPostingRecord input (normalizeCompanyName input.company)
        (computePatterns input.jobDescription (normalizeCompanyName input.company) now
          (queryByCompany st.jobPatternsTable (normalizeCompanyName input.company))).2
        now newId).lastSeen = some now ∧
    ∀ r ∈ st.jobPatternsTable,
      r ∈ (detectCompanyPatterns input now newId false false st).2.jobPatternsTable := by
  refine ⟨rfl, rfl, rfl, ?_⟩
  intro r hr
  exact List.mem_append_left _ hr

/-- C1 counterexample: with an empty store, a call whose S3 summary write
fails reports failure, yet a new PostingRecord is already visible to a
subsequent `queryByCompany` — the write is not all-or-nothing. -/
theorem C1_counterexample_partial_write :
    (detectCompanyPatterns sampleInput 0 1 false true ⟨[], []⟩).1 =
      Except.error StoreErr.storeUnavailable ∧
    queryByCompany (detectCompanyPatterns sampleInput 0 1 false true ⟨[], []⟩).2.jobPatternsTable
      (normalizeCompanyName sampleInput.company) ≠ [] :=
  ⟨rfl, by decide⟩

/-- C1 (amended): the operation performs two durable writes per
successful call — the PostingRecord put and the S3 summary put.  A
failure of the record write fails the call with both stores untouched,
but a failure of the summary write fails the call after the record write
has persisted, leaving the new PostingRecord visible (a partial
write). -/
theorem C1_amended_two_writes (input : AnalyzeInput) (now : Int) (newId : Nat) (st : Stores) :
    (∀ s3Fails : Bool, detectCompanyPatterns input now newId true s3Fails st =
        (Except.error StoreErr.storeUnavailable, st)) ∧
    ((detectCompanyPatterns input now newId false true st).1 =
        Except.error StoreErr.storeUnavailable ∧
      (detectCompanyPatterns input now newId false true st).2.jobPatternsTable =
        st.jobPatternsTable ++
          [newPostingRecord input (normalizeCompanyName input.company)
            (computePatterns input.jobDescription (normalizeCompanyName input.company) now
              (queryByCompany st.jobPatternsTable (normalizeCompanyName input.company))).2
            now newId] ∧
      (detectCompanyPatterns input now newId false true st).2.jobDataBucket =
        st.jobDataBucket) ∧
    ((detectCompanyPatterns input now newId false false st).2.jobPatternsTable =
        st.jobPatternsTable ++
          [newPostingRecord input (normalizeCompanyName input.company)
            (computePatterns input.jobDescription (normalizeCompanyName input.company) now
              (queryByCompany st.jobPatternsTable (normalizeCompanyName input.company))).2
            now newId] ∧
      (detectCompanyPatterns input now newId false false st).2.jobDataBucket =
        st.jobDataBucket ++
          [⟨normalizeCompanyName input.company,
            (computePatterns input.jobDescription (normalizeCompanyName input.company) now
              (queryByCompany st.jobPatternsTable (normalizeCompanyName input.company))).1,
            (computePatterns input.jobDescription (normalizeCompanyName input.company) now
              (queryByCompany st.jobPatternsTable (normalizeCompanyName input.company))).2,
            now⟩]) := by
  refine ⟨fun s3Fails => ?_, ⟨rfl, rfl, rfl⟩, rfl, rfl⟩
  cases s3Fails <;> rfl

/-! ## Normalization: conditional idempotence -/

theorem toNat_ofNat_letter (m : Nat) (h1 : 97 ≤ m) (h2 : m ≤ 122) :
    (Char.ofNat m).toNat = m := by
  interval_cases m <;> decide

theorem toLower_toLower (c : Char) :
    Char.toLower (Char.toLower c) = Char.toLower c := by
  simp only [Char.toLower]
  by_cases h : c.toNat ≥ 65 ∧ c.toNat ≤ 90
  · rw [if_pos h, toNat_ofNat_letter (c.toNat + 32) (by omega) (by omega), if_neg (by omega)]
  · rw [if_neg h, if_neg h]

theorem mem_collapseAux {c : Char} :
    ∀ (b : Bool) (s : Str), c ∈ collapseAux b s → c = ' ' ∨ c ∈ s := by
  intro b s
  induction s generalizing b with
  | nil => intro h; cases h
  | cons x rest ih =>
    intro h
    simp only [collapseAux] at h
    by_cases hx : isJsSpace x = true
    · rw [if_pos hx] at h
      cases b with
      | true =>
        rcases ih true h with h1 | h2
        · exact Or.inl h1
        · exact Or.inr (List.mem_cons_of_mem _ h2)
      | false =>
        rcases List.mem_cons.mp h with rfl | h2
        · exact Or.inl rfl
        · rcases ih true h2 with h1 | h3
          · exact Or.inl h1
          · exact Or.inr (List.mem_cons_of_mem _ h3)
    · rw [if_neg hx] at h
      rcases List.mem_cons.mp h with rfl | h2
      · exact Or.inr (List.mem_cons_self _ _)
      · rcases ih false h2 with h1 | h3
        · exact Or.inl h1
        · exact Or.inr (List.mem_cons_of_mem _ h3)

theorem spaces_collapseAux {c : Char} :
    ∀ (b : Bool) (s : Str), c ∈ collapseAux b s → isJsSpace c = true → c = ' ' := by
  intro b s
  induction s generalizing b with
  | nil => intro h; cases h
  | cons x rest ih =>
    intro h hc
    simp only [collapseAux] at h
    by_cases hx : isJsSpace x = true
    · rw [if_pos hx] at h
      cases b with
      | true => exact ih true h hc
      | false =>
        rcases List.mem_cons.mp h with rfl | h2
        · rfl
        · exact ih true h2 hc
    · rw [if_neg hx] at h
      rcases List.mem_cons.mp h with rfl | h2
      · exact absurd hc (by simp [hx])
      · exact ih false h2 hc

theorem collapseAux_true_of_headNotSpace (s : Str) (h : headNotSpace s = true) :
    collapseAux true s = collapseAux false s := by
  cases s with
  | nil => rfl
  | cons c rest =>
    simp only [headNotSpace, Bool.not_eq_true'] at h
    simp [collapseAux, h]

theorem hasAdjacentSpaces_tail {c : Char} {rest : Str}
    (h : hasAdjacentSpaces (c :: rest) = false) : hasAdjacentSpaces rest = false := by
  cases rest with
  | nil => rfl
  | cons d t =>
    simp only [hasAdjacentSpaces, Bool.or_eq_false_iff] at h
    exact h.2

theorem collapseAux_eq_self :
    ∀ s : Str, (∀ c ∈ s, isJsSpace c = true → c = ' ') →
      hasAdjacentSpaces s = false → collapseAux false s = s := by
  intro s
  induction s with
  | nil => intro _ _; rfl
  | cons x rest ih =>
    intro hsp hadj
    by_cases hx : isJsSpace x = true
    · have hx' : x = ' ' := hsp x (List.mem_cons_self x rest) hx
      subst hx'
      have hhead : headNotSpace rest = true := by
        cases rest with
        | nil => rfl
        | cons d t =>
          simp only [hasAdjacentSpaces, Bool.or_eq_false_iff, Bool.and_eq_false_iff] at hadj
          rcases hadj.1 with h1 | h1
          · exact absurd hx (by simp [h1])
          · simp [headNotSpace, h1]
      rw [show collapseAux false (' ' :: rest) = ' ' :: collapseAux true rest from by
          simp [collapseAux, hx],
        collapseAux_true_of_headNotSpace rest hhead,
        ih (fun c hc h => hsp c (List.mem_cons_of_mem _ hc) h) (hasAdjacentSpaces_tail hadj)]
    · simp only [collapseAux, if_neg hx]
      rw [ih (fun c hc h => hsp c (List.mem_cons_of_mem _ hc) h) (hasAdjacentSpaces_tail hadj)]

theorem headNotSpace_dropWhile (s : Str) :
    headNotSpace (s.dropWhile isJsSpace) = true := by
  induction s with
  | nil => rfl
  | cons c rest ih =>
    by_cases hc : isJsSpace c = true
    · rw [List.dropWhile_cons_of_pos hc]; exact ih
    · rw [List.dropWhile_cons_of_neg hc]
      simp [headNotSpace, hc]

theorem dropWhile_eq_self_of_headNotSpace {s : Str} (h : headNotSpace s = true) :
    s.dropWhile isJsSpace = s := by
  cases s with
  | nil => rfl
  | cons c rest =>
    simp only [headNotSpace, Bool.not_eq_true'] at h
    exact List.dropWhile_cons_of_neg (by simp [h])

theorem trimStr_reverse_headNotSpace (s : Str) :
    headNotSpace (trimStr s).reverse = true := by
  rw [show (trimStr s).reverse =
      (s.dropWhile isJsSpace).reverse.dropWhile isJsSpace from List.reverse_reverse _]
  exact headNotSpace_dropWhile _

theorem trimStr_headNotSpace (s : Str) : headNotSpace (trimStr s) = true := by
  have hpre : (trimStr s) <+: s.dropWhile isJsSpace := by
    have hsuf : (s.dropWhile isJsSpace).reverse.dropWhile isJsSpace <:+
        (s.dropWhile isJsSpace).reverse := List.dropWhile_suffix _
    have := List.reverse_prefix.mpr hsuf
    rwa [List.reverse_reverse] at this
  cases ht : trimStr s with
  | nil => rfl
  | cons c rest =>
    obtain ⟨tail, htail⟩ := hpre
    rw [ht] at htail
    have hfull := headNotSpace_dropWhile s
    rw [← htail] at hfull
    simpa [headNotSpace] using hfull

theorem trimStr_trimStr (s : Str) : trimStr (trimStr s) = trimStr s := by
  have hdef : trimStr (trimStr s) =
      (((trimStr s).dropWhile isJsSpace).reverse.dropWhile isJsSpace).reverse := rfl
  rw [hdef, dropWhile_eq_self_of_headNotSpace (trimStr_headNotSpace s),
    dropWhile_eq_self_of_headNotSpace (trimStr_reverse_headNotSpace s),
    List.reverse_reverse]

theorem mem_trimStr {c : Char} {s : Str} (h : c ∈ trimStr s) : c ∈ s := by
  unfold trimStr at h
  rw [List.mem_reverse] at h
  have h1 : c ∈ (s.dropWhile isJsSpace).reverse :=
    List.Sublist.mem h (List.dropWhile_sublist _)
  rw [List.mem_reverse] at h1
  exact List.Sublist.mem h1 (List.dropWhile_sublist _)

theorem mem_stripCorpSuffix {c : Char} {s : Str} (h : c ∈ stripCorpSuffix s) : c ∈ s := by
  unfold stripCorpSuffix at h
  cases hf : corpSuffixes.find? (endsWithCorpWord s) with
  | none => rw [hf] at h; exact h
  | some w =>
    rw [hf] at h
    unfold dropCorpWord at h
    rw [List.mem_reverse] at h
    have h1 : c ∈ s.reverse.drop w.length :=
      List.Sublist.mem h (List.dropWhile_sublist _)
    have h2 : c ∈ s.reverse := List.Sublist.mem h1 (List.drop_sublist _ _)
    exact List.mem_reverse.mp h2

theorem normalize_chars {c : Char} (s : Str) (h : c ∈ normalizeCompanyName s) :
    (c = ' ' ∨ c ∈ lowerStr s) ∧ punctChars.contains c = false ∧
      (isJsSpace c = true → c = ' ') := by
  have h1 : c ∈ stripCorpSuffix (stripPunct (collapseWs (lowerStr s))) := mem_trimStr h
  have h2 : c ∈ stripPunct (collapseWs (lowerStr s)) := mem_stripCorpSuffix h1
  obtain ⟨h3, hpred⟩ := List.mem_filter.mp h2
  refine ⟨mem_collapseAux false _ h3, ?_, spaces_collapseAux false _ h3⟩
  simpa using hpred

theorem lowerStr_normalize (s : Str) :
    lowerStr (normalizeCompanyName s) = normalizeCompanyName s := by
  unfold lowerStr
  rw [List.map_congr_left (g := id) ?_, List.map_id]
  intro c hc
  rcases (normalize_chars s hc).1 with rfl | hm
  · decide
  · obtain ⟨d, _, rfl⟩ := List.mem_map.mp hm
    exact toLower_toLower d

theorem collapseWs_normalize (s : Str)
    (hadj : hasAdjacentSpaces (normalizeCompanyName s) = false) :
    collapseWs (normalizeCompanyName s) = normalizeCompanyName s :=
  collapseAux_eq_self _ (fun _ hc => (normalize_chars s hc).2.2) hadj

theorem stripPunct_normalize (s : Str) :
    stripPunct (normalizeCompanyName s) = normalizeCompanyName s :=
  List.filter_eq_self.mpr (fun c hc => by
    rw [(normalize_chars s hc).2.1]; rfl)

theorem stripCorpSuffix_eq_self {s : Str} (h : endsWithCorpSuffix s = false) :
    stripCorpSuffix s = s := by
  unfold stripCorpSuffix
  rw [List.find?_eq_none.mpr ?_]
  intro w hw
  unfold endsWithCorpSuffix at h
  rw [List.any_eq_false] at h
  simp [h w hw]

/-- C2 counterexample: normalization is not idempotent.  Stripping the
dot of `"a . b"` after whitespace collapsing leaves the double space
`"a  b"`, which a second normalization collapses to `"a b"`. -/
theorem C2_counterexample_not_idempotent :
    normalizeCompanyName (normalizeCompanyName "a . b".data) ≠
      normalizeCompanyName "a . b".data := by decide

/-- C2 (amended): normalization is idempotent on exactly the inputs whose
normal form needs no further rewriting — whenever `normalize(s)` contains
no two adjacent whitespace characters (punctuation stripping can create
new double spaces) and does not still end in a corporate-suffix token
(only one trailing suffix is stripped per pass), a second application
returns it unchanged. -/
theorem C2_amended_conditional_idempotent (s : Str)
    (h1 : hasAdjacentSpaces (normalizeCompanyName s) = false)
    (h2 : endsWithCorpSuffix (normalizeCompanyName s) = false) :
    normalizeCompanyName (normalizeCompanyName s) = normalizeCompanyName s := by
  show trimStr (stripCorpSuffix (stripPunct (collapseWs (lowerStr (normalizeCompanyName s))))) =
    normalizeCompanyName s
  rw [lowerStr_normalize, collapseWs_normalize s h1, stripPunct_normalize,
    stripCorpSuffix_eq_self h2]
  exact trimStr_trimStr _

/-- Witness for the amended C2: "Acme, Inc." normalizes to "acme", whose
normal form is stable. -/
theorem C2_amended_conditional_idempotent_witness :
    hasAdjacentSpaces (normalizeCompanyName "Acme, Inc.".data) = false ∧
    endsWithCorpSuffix (normalizeCompanyName "Acme, Inc.".data) = false ∧
    normalizeCompanyName (normalizeCompanyName "Acme, Inc.".data) =
      normalizeCompanyName "Acme, Inc.".data :=
  ⟨by decide, by decide,
    C2_amended_conditional_idempotent "Acme, Inc.".data (by decide) (by decide)⟩

/-! ## Fleet aggregator: grouping invariant -/

theorem mem_addToSet {t x : Str} {s : List Str} :
    t ∈ addToSet x s ↔ t ∈ s ∨ t = x := by
  unfold addToSet
  by_cases h : x ∈ s
  · rw [if_pos h]
    constructor
    · exact Or.inl
    · rintro (ht | rfl)
      · exact ht
      · exact h
  · rw [if_neg h]
    simp [List.mem_append]

theorem nodup_addToSet {x : Str} {s : List Str} (h : s.Nodup) :
    (addToSet x s).Nodup := by
  unfold addToSet
  by_cases hx : x ∈ s
  · rwa [if_pos hx]
  · rw [if_neg hx]
    simp [List.nodup_append, h, hx]

theorem updateMap_names (m : List CompanyAgg) (r : PostingRecord) :
    (updateMap m r).map (fun c => c.companyName) =
      if r.companyName ∈ m.map (fun c => c.companyName) then
        m.map (fun c => c.companyName)
      else m.map (fun c => c.companyName) ++ [r.companyName] := by
  induction m with
  | nil => simp [updateMap, bumpAgg, emptyAgg]
  | cons c cs ih =>
    by_cases hc : c.companyName = r.companyName
    · simp only [updateMap, if_pos hc, List.map_cons]
      rw [if_pos (by simp [List.mem_cons, hc.symm])]
      rfl
    · simp only [updateMap, if_neg hc, List.map_cons, ih]
      by_cases hm : r.companyName ∈ cs.map (fun c => c.companyName)
      · rw [if_pos hm, if_pos (by simp [List.mem_cons, hm])]
      · rw [if_neg hm, if_neg (by
          simp only [List.mem_cons]
          rintro (h | h)
          · exact hc h.symm
          · exact hm h)]
        rfl

theorem updateMap_mem_cases {m : List CompanyAgg} {r : PostingRecord}
    (hnd : (m.map (fun c => c.companyName)).Nodup) :
    ∀ c' ∈ updateMap m r,
      (c' ∈ m ∧ c'.companyName ≠ r.companyName) ∨
      (∃ c, c ∈ m ∧ c.companyName = r.companyName ∧ c' = bumpAgg c r) ∨
      (r.companyName ∉ m.map (fun c => c.companyName) ∧
        c' = bumpAgg (emptyAgg r.companyName) r) := by
  induction m with
  | nil =>
    intro c' hc'
    rcases List.mem_singleton.mp hc' with rfl
    exact Or.inr (Or.inr ⟨by simp, rfl⟩)
  | cons c cs ih =>
    intro c' hc'
    rcases List.nodup_cons.mp hnd with ⟨hcnot, hndtail⟩
    by_cases hc : c.companyName = r.companyName
    · rw [show updateMap (c :: cs) r = bumpAgg c r :: cs from by
        simp [updateMap, hc]] at hc'
      rcases List.mem_cons.mp hc' with rfl | hmem
      · exact Or.inr (Or.inl ⟨c, List.mem_cons_self _ _, hc, rfl⟩)
      · refine Or.inl ⟨List.mem_cons_of_mem _ hmem, ?_⟩
        intro heq
        apply hcnot
        show c.companyName ∈ List.map (fun c => c.companyName) cs
        rw [hc, ← heq]
        exact List.mem_map_of_mem _ hmem
    · rw [show updateMap (c :: cs) r = c :: updateMap cs r from by
        simp [updateMap, hc]] at hc'
      rcases List.mem_cons.mp hc' with rfl | hmem
      · exact Or.inl ⟨List.mem_cons_self _ _, hc⟩
      · rcases ih hndtail c' hmem with ⟨hm, hne⟩ | ⟨c0, h0, hn0, he⟩ | ⟨hnot, he⟩
        · exact Or.inl ⟨List.mem_cons_of_mem _ hm, hne⟩
        · exact Or.inr (Or.inl ⟨c0, List.mem_cons_of_mem _ h0, hn0, he⟩)
        · refine Or.inr (Or.inr ⟨?_, he⟩)
          simp only [List.map_cons, List.mem_cons]
          rintro (h | h)
          · exact hc h.symm
          · exact hnot h

theorem aggStats_bump_match {items : List PostingRecord} {c : CompanyAgg}
    {r : PostingRecord} (h : AggStats items c) (hname : c.companyName = r.companyName) :
    AggStats (items ++ [r]) (bumpAgg c r) := by
  obtain ⟨h1, h2, h3, h4⟩ := h
  have hfil : ∀ its : List PostingRecord,
      (its ++ [r]).filter (fun x => decide (x.companyName = c.companyName)) =
      its.filter (fun x => decide (x.companyName = c.companyName)) ++ [r] := by
    intro its
    rw [List.filter_append]
    simp [hname.symm]
  refine ⟨?_, ?_, ?_, ?_⟩
  · show c.postingCount + 1 = _
    rw [show (bumpAgg c r).companyName = c.companyName from rfl, hfil]
    simp [h1]
  · show c.similarPostingsCount + r.similarJobs.length = _
    rw [show (bumpAgg c r).companyName = c.companyName from rfl, hfil]
    simp [h2]
  · exact nodup_addToSet h3
  · intro t
    show t ∈ addToSet r.jobTitle c.titles ↔ _
    rw [mem_addToSet, show (bumpAgg c r).companyName = c.companyName from rfl, hfil,
      List.map_append]
    simp only [List.mem_append, List.map_cons, List.map_nil, List.mem_singleton]
    rw [h4 t]

theorem aggStats_skip {items : List PostingRecord} {c : CompanyAgg}
    {r : PostingRecord} (h : AggStats items c) (hname : c.companyName ≠ r.companyName) :
    AggStats (items ++ [r]) c := by
  obtain ⟨h1, h2, h3, h4⟩ := h
  have hone : [r].filter (fun x => decide (x.companyName = c.companyName)) = [] := by
    simp only [List.filter_cons, List.filter_nil, decide_eq_true_eq]
    rw [if_neg (fun heq => hname heq.symm)]
  have hfil : (items ++ [r]).filter (fun x => decide (x.companyName = c.companyName)) =
      items.filter (fun x => decide (x.companyName = c.companyName)) := by
    rw [List.filter_append, hone, List.append_nil]
  exact ⟨by rw [hfil]; exact h1, by rw [hfil]; exact h2, h3, fun t => by rw [hfil]; exact h4 t⟩

theorem aggStats_new (items : List PostingRecord) (r : PostingRecord)
    (hnot : r.companyName ∉ items.map (fun x => x.companyName)) :
    AggStats (items ++ [r]) (bumpAgg (emptyAgg r.companyName) r) := by
  have hfil : items.filter (fun x => decide (x.companyName = r.companyName)) = [] := by
    rw [List.filter_eq_nil_iff]
    intro a ha
    simp only [decide_eq_true_eq]
    intro heq
    exact hnot (by rw [← heq]; exact List.mem_map_of_mem _ ha)
  have hall : (items ++ [r]).filter (fun x => decide (x.companyName = r.companyName)) = [r] := by
    rw [List.filter_append, hfil]
    simp
  refine ⟨?_, ?_, ?_, ?_⟩
  · show 0 + 1 = _
    rw [show (bumpAgg (emptyAgg r.companyName) r).companyName = r.companyName from rfl, hall]
    rfl
  · show 0 + r.similarJobs.length = _
    rw [show (bumpAgg (emptyAgg r.companyName) r).companyName = r.companyName from rfl, hall]
    simp
  · show (addToSet r.jobTitle []).Nodup
    simp [addToSet]
  · intro t
    show t ∈ addToSet r.jobTitle [] ↔ _
    rw [show (bumpAgg (emptyAgg r.companyName) r).companyName = r.companyName from rfl, hall,
      mem_addToSet]
    simp

theorem mapInv_step {processed : List PostingRecord} {m : List CompanyAgg}
    {r : PostingRecord} (h : MapInv processed m) :
    MapInv (processed ++ [r]) (updateMap m r) := by
  obtain ⟨hnd, hiff, hstats⟩ := h
  refine ⟨?_, ?_, ?_⟩
  · rw [updateMap_names]
    split_ifs with hmem
    · exact hnd
    · simp [List.nodup_append, hnd, hmem]
  · intro n
    rw [updateMap_names, List.map_append]
    split_ifs with hmem
    · simp only [List.mem_append, List.map_cons, List.map_nil, List.mem_singleton]
      constructor
      · intro hn
        exact Or.inl ((hiff n).mp hn)
      · rintro (hn | rfl)
        · exact (hiff n).mpr hn
        · exact hmem
    · simp only [List.mem_append, List.map_cons, List.map_nil, List.mem_singleton]
      constructor
      · rintro (hn | rfl)
        · exact Or.inl ((hiff n).mp hn)
        · exact Or.inr rfl
      · rintro (hn | rfl)
        · exact Or.inl ((hiff n).mpr hn)
        · exact Or.inr rfl
  · intro c' hc'
    rcases updateMap_mem_cases hnd c' hc' with ⟨hm, hne⟩ | ⟨c0, h0, hn0, he⟩ | ⟨hnot, he⟩
    · exact aggStats_skip (hstats c' hm) hne
    · rw [he]
      exact aggStats_bump_match (hstats c0 h0) hn0
    · rw [he]
      exact aggStats_new processed r (fun hmem => hnot ((hiff _).mpr hmem))

theorem mapInv_foldl :
    ∀ (items pre : List PostingRecord) (m : List CompanyAgg),
      MapInv pre m → MapInv (pre ++ items) (List.foldl updateMap m items) := by
  intro items
  induction items with
  | nil =>
    intro pre m h
    simpa using h
  | cons r rest ih =>
    intro pre m h
    have h3 := ih (pre ++ [r]) (updateMap m r) (mapInv_step h)
    rw [show pre ++ r :: rest = (pre ++ [r]) ++ rest from by simp]
    exact h3

theorem buildCompanyMap_inv (items : List PostingRecord) :
    MapInv items (buildCompanyMap items) := by
  have h0 : MapInv [] ([] : List CompanyAgg) := by
    refine ⟨List.nodup_nil, ?_, ?_⟩
    · intro n; simp
    · intro c hc; cases hc
  have := mapInv_foldl items [] [] h0
  simpa [buildCompanyMap] using this

theorem insertByScoreDesc_perm (e : CompanySuspicionEntry)
    (l : List CompanySuspicionEntry) : (insertByScoreDesc e l).Perm (e :: l) := by
  induction l with
  | nil => exact List.Perm.refl _
  | cons x xs ih =>
    unfold insertByScoreDesc
    split_ifs with h
    · exact List.Perm.refl _
    · exact (List.Perm.cons x ih).trans (List.Perm.swap e x xs)

theorem sortByScoreDesc_perm (l : List CompanySuspicionEntry) :
    (sortByScoreDesc l).Perm l := by
  induction l with
  | nil => exact List.Perm.refl _
  | cons x xs ih =>
    exact (insertByScoreDesc_perm x (sortByScoreDesc xs)).trans (List.Perm.cons x ih)

theorem length_eq_dedup_length {s l : List Str} (hnd : s.Nodup)
    (hmem : ∀ t, t ∈ s ↔ t ∈ l) : s.length = l.dedup.length := by
  have hperm : s.Perm l.dedup :=
    (List.perm_ext_iff_of_nodup hnd l.nodup_dedup).mpr
      (fun a => (hmem a).trans (List.mem_dedup).symm)
  exact hperm.length_eq

/-- Supporting theorem: the grouping part of the fleet aggregator, and
the score the program actually returns.  `getSuspiciousCompanies`
produces one entry per distinct company name among the records with more
than 3 similar-job ids; each entry's `postingCount` is its group's size,
`similarPostingsCount` the sum of similar-job counts over the group, and
`suspicionScore` the rounded min-clamped half of `similarPostingsCount`
with no title-ratio bonus (the bonus guard compares `NaN`, see
`calculateSuspicionScore`). -/
theorem getSuspiciousCompanies_grouping (table : List PostingRecord) :
    ((getSuspiciousCompanies table).map (fun e => e.companyName)).Perm
      (((table.filter (fun r => decide (r.similarJobs.length > 3))).map
        (fun r => r.companyName)).dedup) ∧
    ∀ e ∈ getSuspiciousCompanies table,
      e.postingCount = (groupOf table e.companyName).length ∧
      e.similarPostingsCount =
        ((groupOf table e.companyName).map (fun r => r.similarJobs.length)).sum ∧
      e.suspicionScore = jsRound (min 10 ((e.similarPostingsCount : ℚ) / 2)) := by
  obtain ⟨hnd, hiff, hstats⟩ :=
    buildCompanyMap_inv (table.filter (fun r => decide (r.similarJobs.length > 3)))
  have hperm : (getSuspiciousCompanies table).Perm
      ((buildCompanyMap (table.filter (fun r => decide (r.similarJobs.length > 3)))).map
        toEntry) :=
    sortByScoreDesc_perm _
  constructor
  · have h1 : ((getSuspiciousCompanies table).map (fun e => e.companyName)).Perm
        (((buildCompanyMap (table.filter (fun r => decide (r.similarJobs.length > 3)))).map
          toEntry).map (fun e => e.companyName)) := hperm.map _
    have h2 : ((buildCompanyMap (table.filter (fun r => decide (r.similarJobs.length > 3)))).map
          toEntry).map (fun e => e.companyName) =
        (buildCompanyMap (table.filter (fun r => decide (r.similarJobs.length > 3)))).map
          (fun c => c.companyName) := by
      rw [List.map_map]
      rfl
    have h3 : ((buildCompanyMap (table.filter (fun r => decide (r.similarJobs.length > 3)))).map
          (fun c => c.companyName)).Perm
        (((table.filter (fun r => decide (r.similarJobs.length > 3))).map
          (fun r => r.companyName)).dedup) :=
      (List.perm_ext_iff_of_nodup hnd (List.nodup_dedup _)).mpr
        (fun a => (hiff a).trans (List.mem_dedup).symm)
    rw [h2] at h1
    exact h1.trans h3
  · intro e he
    have he' : e ∈ (buildCompanyMap
        (table.filter (fun r => decide (r.similarJobs.length > 3)))).map toEntry :=
      hperm.mem_iff.mp he
    obtain ⟨c, hc, rfl⟩ := List.mem_map.mp he'
    obtain ⟨h1, h2, _, _⟩ := hstats c hc
    exact ⟨h1, h2, rfl⟩

/-- The bonus guard of `calculateSuspicionScore` can never hold: its
`titleRatio` operand is `NaN`. -/
theorem titleRatioBelowHalf_false (c : CompanyAgg) : titleRatioBelowHalf c = false := rfl

/-- C5 (code bug): at the failing input — six stored postings of one
company with a single distinct title and four similar-job ids each — the
program's entry has `postingCount = 6`, `similarPostingsCount = 24` and
`suspicionScore = round(min(10, 24/2)) = 10`, while the formula the
claim and the spec state yields `round(10 + (1 - 1/6) * 5) = 14`: the
title-ratio bonus never fires because `company.titles.length` reads
`length` off a JS `Set` (`undefined`), making `titleRatio` `NaN`. -/
theorem C5_titles_length_bug :
    (∀ e ∈ getSuspiciousCompanies (List.replicate 6 flaggedRecord),
      e.postingCount = 6 ∧ e.similarPostingsCount = 24 ∧ e.suspicionScore = 10) ∧
    specSuspicionScore 6 24 1 = 14 ∧ (10 : Int) ≠ 14 := by
  refine ⟨?_, ?_, by decide⟩
  · intro e he
    rw [show getSuspiciousCompanies (List.replicate 6 flaggedRecord) =
        [toEntry ⟨"acme".data, 6, 24, ["l".data], ["t".data]⟩] from rfl,
      List.mem_singleton] at he
    subst he
    refine ⟨rfl, rfl, ?_⟩
    show calculateSuspicionScore _ = 10
    unfold calculateSuspicionScore jsRound
    norm_num
  · unfold specSuspicionScore jsRound
    norm_num

end CareerClarity
